import Mathlib

/-!
Verification development for the microcap-sec-shares pipeline
(`src/build_sic.py` and `src/extract_shares.py`).

The Python sources are embedded shallowly: pure functions become Lean
functions over explicit data, JSON values become an inductive `JVal`,
stateful loops (retry loop, pacing loop) become explicit state passing,
and wall-clock time is passed as explicit rational clock readings.
-/

namespace MicrocapSec

/-- A Python/JSON value, as manipulated by both scripts.  Objects keep
their fields in insertion order, mirroring Python dicts. -/
inductive JVal where
  | null
  | b (v : Bool)
  | num (q : ℚ)
  | str (s : String)
  | arr (xs : List JVal)
  | obj (fields : List (String × JVal))

/-- `dict.get(k, d)`: first binding of `k`, else the default. -/
def jGetD (fields : List (String × JVal)) (k : String) (d : JVal) : JVal :=
  match fields with
  | [] => d
  | (k', v) :: rest => if k' == k then v else jGetD rest k d

/-- `dict.get(k)`: absent keys give `None`. -/
def jGet (fields : List (String × JVal)) (k : String) : JVal :=
  jGetD fields k .null

/-- Python truthiness of a JSON value (`if x:`). -/
def pyTruthy : JVal → Bool
  | .null => false
  | .b v => v
  | .num q => q != 0
  | .str s => !s.isEmpty
  | .arr xs => !xs.isEmpty
  | .obj fs => !fs.isEmpty

/-- `isinstance(v, (int, float))`; Python `bool` is a subclass of `int`. -/
def isNumericPy : JVal → Bool
  | .num _ => true
  | .b _ => true
  | _ => false

/-- `str(v)` for the scalar shapes a CIK field can take in practice
(strings and integers); containers are outside the modelled scope. -/
def pyStrForCik : JVal → String
  | .str s => s
  | .num q => if q.den == 1 then toString q.num else toString q
  | .b v => if v then "True" else "False"
  | _ => ""

/-- The digit characters of a string, in order
(`"".join(c for c in str(v) if c.isdigit())` / `re.sub(r"\D", "", ...)`). -/
def digitsOf (s : String) : List Char :=
  s.data.filter Char.isDigit

/-- `pad_cik10` (build_sic.py lines 47-49, extract_shares.py lines 38-40):
keep only digit characters, then take the last 10 characters of
`"0000000000" + s`; an all-empty digit string gives `""`. -/
def pad_cik10 (v : String) : String :=
  let s := digitsOf v
  if s.isEmpty then ""
  else
    let padded := "0000000000".data ++ s
    String.mk (padded.drop (padded.length - 10))

/-- `pad_cik10(j.get("cik"))` where the argument is first passed through
`(cik or "")` and `str(...)`. -/
def padCikOfJVal (v : JVal) : String :=
  if pyTruthy v then pad_cik10 (pyStrForCik v) else pad_cik10 ""

/-- Value of a digit character. -/
def digitVal (c : Char) : Nat := c.toNat - 48

/-- Numeric value denoted by a list of digit characters. -/
def digitsToNat (l : List Char) : Nat :=
  l.foldl (fun acc c => acc * 10 + digitVal c) 0

/-- ASCII uppercase of one character (model of Python `str.upper`). -/
def asciiUpperChar (c : Char) : Char :=
  if 'a' ≤ c && c ≤ 'z' then Char.ofNat (c.toNat - 32) else c

/-- ASCII lowercase of one character (model of Python `str.lower`). -/
def asciiLowerChar (c : Char) : Char :=
  if 'A' ≤ c && c ≤ 'Z' then Char.ofNat (c.toNat + 32) else c

/-- Python `str.upper()`. -/
def asciiUpper (s : String) : String := String.mk (s.data.map asciiUpperChar)

/-- Python `str.lower()`. -/
def asciiLower (s : String) : String := String.mk (s.data.map asciiLowerChar)

/-- Python `str.strip()`: remove whitespace from both ends. -/
def pyStrip (s : String) : String :=
  String.mk (((s.data.dropWhile Char.isWhitespace).reverse.dropWhile
    Char.isWhitespace).reverse)

/-- Helper for `splitPipe`: accumulates the current field reversed. -/
def splitPipeAux : List Char → List Char → List (List Char)
  | [], acc => [acc.reverse]
  | c :: rest, acc =>
    if c == '|' then acc.reverse :: splitPipeAux rest []
    else splitPipeAux rest (c :: acc)

/-- Python `str.split("|")`: every separator starts a new field,
empty fields are kept, and `"".split("|") == [""]`. -/
def splitPipe (s : String) : List String :=
  (splitPipeAux s.data []).map String.mk

/-- Python `str.startswith(pre)`. -/
def strStartsWith (s pre : String) : Bool := pre.data.isPrefixOf s.data

/-- Python `str.endswith(suf)`. -/
def strEndsWith (s suf : String) : Bool := suf.data.isSuffixOf s.data

/-- `norm_symbol` (build_sic.py lines 51-52):
`(s or "").strip().upper().replace(" ", "")`. -/
def norm_symbol (s : String) : String :=
  String.mk ((asciiUpper (pyStrip s)).data.filter (fun c => c != ' '))

/-- A regex word character, `\w` restricted to ASCII: `[A-Za-z0-9_]`. -/
def isWordChar (c : Char) : Bool := c.isAlphanum || c == '_'

/-- A `\b` assertion placed right after a word character at position
`k - 1`: holds when position `k` is past the end or holds a non-word
character. -/
def boundaryAfterWord (cs : List Char) (k : Nat) : Bool :=
  decide (cs.length ≤ k) || !isWordChar (cs.getD k ' ')

/-- A `\b` assertion placed right after a `.` (a non-word character) at
position `k - 1`: holds only when position `k` holds a word character. -/
def boundaryAfterDot (cs : List Char) (k : Nat) : Bool :=
  decide (k < cs.length) && isWordChar (cs.getD k ' ')

/-- Characters accepted by the character class `[\s\-]`. -/
def isWsOrHyphen (c : Char) : Bool := c.isWhitespace || c == '-'

/-- Characters accepted by the character class of whitespace, hyphen and
slash used in the closing group of the warrant/right/unit pattern. -/
def isWsHyphenSlash (c : Char) : Bool := c.isWhitespace || c == '-' || c == '/'

/-- The closing group of the warrant/right/unit pattern — end of string
or whitespace/hyphen/slash — checked at position `k`. -/
def rwuClose (cs : List Char) (k : Nat) : Bool :=
  decide (cs.length ≤ k) || isWsHyphenSlash (cs.getD k ' ')

/-- The word alternatives of the warrant/right/unit name pattern. -/
def rwuWords : List String :=
  ["warrant", "warrants", "right", "unit", "units", "ws", "wt", "wts"]

/-- One word alternative of the warrant/right/unit pattern — the word,
its optional extra `s`, and the closing group — starting at position
`j`. -/
def rwuWordAt (cs : List Char) (j : Nat) : Bool :=
  rwuWords.any (fun w =>
    w.data.isPrefixOf (cs.drop j) &&
      (rwuClose cs (j + w.data.length) ||
        (cs.getD (j + w.data.length) ' ' == 's' &&
          rwuClose cs (j + w.data.length + 1))))

/-- A match of the whole warrant/right/unit name pattern whose opening
group `(^|[\s\-])` sits at position `i`. -/
def rwuHitAt (cs : List Char) (i : Nat) : Bool :=
  (decide (i = 0) && rwuWordAt cs 0) ||
    (isWsOrHyphen (cs.getD i '_') && decide (i < cs.length) && rwuWordAt cs (i + 1))

/-- The symbol-suffix alternatives of `[-\.](WS|W|WT|RT|U)$`. -/
def rwuSymSuffixes : List String :=
  ["-WS", "-W", "-WT", "-RT", "-U", ".WS", ".W", ".WT", ".RT", ".U"]

/-- `is_right_warrant_unit` (build_sic.py lines 54-61): the
warrant/warrants/right/unit/units/ws/wt/wts name pattern searched in the
lowercased name, or the suffix pattern `[-\.](WS|W|WT|RT|U)$` searched
in the uppercased symbol. -/
def is_right_warrant_unit (name symbol : String) : Bool :=
  let n := asciiLower name
  let sym := asciiUpper symbol
  (List.range (n.data.length + 1)).any (fun i => rwuHitAt n.data i) ||
    rwuSymSuffixes.any (fun suf => strEndsWith sym suf)

/-- A match of `l\.?p\.?\b` starting at position `i`, with regex
backtracking over the two optional dots made explicit. -/
def lpHitAt (cs : List Char) (i : Nat) : Bool :=
  cs.getD i '_' == 'l' &&
    ((cs.getD (i + 1) '_' == 'p' &&
        (boundaryAfterWord cs (i + 2) ||
          (cs.getD (i + 2) '_' == '.' && boundaryAfterDot cs (i + 3)))) ||
      (cs.getD (i + 1) '_' == '.' && cs.getD (i + 2) '_' == 'p' &&
        (boundaryAfterWord cs (i + 3) ||
          (cs.getD (i + 3) '_' == '.' && boundaryAfterDot cs (i + 4)))))

/-- A match of `EXTRA_FUNDLIKE_PAT` (build_sic.py lines 63-66) starting
at position `i` of the lowercased name:
`(closed[- ]?end|etn\b|fund\b|trust\b|preferred\b|preference\b|limited partnership|l\.?p\.?\b)`. -/
def fundHitAt (cs : List Char) (i : Nat) : Bool :=
  let sub := cs.drop i
  ("closed".data.isPrefixOf sub &&
      ("end".data.isPrefixOf (cs.drop (i + 6)) ||
        ((cs.getD (i + 6) '_' == '-' || cs.getD (i + 6) '_' == ' ') &&
          "end".data.isPrefixOf (cs.drop (i + 7))))) ||
    ("etn".data.isPrefixOf sub && boundaryAfterWord cs (i + 3)) ||
    ("fund".data.isPrefixOf sub && boundaryAfterWord cs (i + 4)) ||
    ("trust".data.isPrefixOf sub && boundaryAfterWord cs (i + 5)) ||
    ("preferred".data.isPrefixOf sub && boundaryAfterWord cs (i + 9)) ||
    ("preference".data.isPrefixOf sub && boundaryAfterWord cs (i + 10)) ||
    "limited partnership".data.isPrefixOf sub ||
    lpHitAt cs i

/-- `is_extra_fundlike` (build_sic.py lines 68-70): whether
`EXTRA_FUNDLIKE_PAT` (compiled with `re.I`) matches anywhere in the
name. -/
def is_extra_fundlike (name : String) : Bool :=
  let cs := (asciiLower name).data
  (List.range (cs.length + 1)).any (fun i => fundHitAt cs i)

/-- The per-row filter of `build_eligible_symbols` (build_sic.py lines
195-221): each `continue` of the loop body becomes `none`, a surviving
row contributes `(sym, exchange)`. -/
def rowAccept (symbol exchange name flags : String) :
    Option (String × String) :=
  if !(exchange == "Nasdaq" || exchange == "NYSE" || exchange == "NYSE American")
  then none
  else
    let sym := norm_symbol symbol
    if sym == "" then none
    else
      let ft : String × String :=
        if flags == "" then ("N", "N")
        else
          let parts := splitPipe flags
          let e := if (parts.getD 0 "N") == "" then "N" else parts.getD 0 "N"
          let t := if (parts.getD 1 "N") == "" then "N" else parts.getD 1 "N"
          (e, t)
      if asciiUpper ft.1 == "Y" then none
      else if asciiUpper ft.2 == "Y" then none
      else if is_right_warrant_unit name sym then none
      else if is_extra_fundlike name then none
      else some (sym, exchange)

/-- The filtered, not yet de-duplicated rows of
`build_eligible_symbols`: the list `out` at line 221 of build_sic.py. -/
def eligible_rows (nas oth : List (String × String × String × String)) :
    List (String × String) :=
  (nas ++ oth).filterMap (fun r => rowAccept r.1 r.2.1 r.2.2.1 r.2.2.2)

/-- The de-duplication loop of `build_eligible_symbols` (build_sic.py
lines 223-230): keep the first occurrence of each symbol, threading the
`seen` set. -/
def dedup_by_symbol : List (String × String) → List String → List (String × String)
  | [], _ => []
  | (sym, ex) :: rest, seen =>
    if sym ∈ seen then dedup_by_symbol rest seen
    else (sym, ex) :: dedup_by_symbol rest (sym :: seen)

/-- `build_eligible_symbols` (build_sic.py lines 185-234): filter the
combined Nasdaq and other-listed rows, then de-duplicate by symbol.
The dropped-row counters only feed debug prints and are omitted. -/
def build_eligible_symbols (nas oth : List (String × String × String × String)) :
    List (String × String) :=
  dedup_by_symbol (eligible_rows nas oth) []

/-- Python `str.rstrip(chars)` for the newline characters: drop trailing
carriage returns and line feeds. -/
def stripCRLF (s : String) : String :=
  String.mk ((s.data.reverse.dropWhile (fun c => c == '\r' || c == '\n')).reverse)

/-- The line preprocessing shared by both file parsers
(`[ln.rstrip("\r\n") for ln in f if ln.strip()]`). -/
def prepLines (raws : List String) : List String :=
  (raws.filter (fun ln => !(pyStrip ln).isEmpty)).map stripCRLF

/-- `idx = {h: i for i, h in enumerate(hdr)}` followed by `idx[key]`:
a Python dict comprehension lets the last occurrence of a duplicated
header name win. -/
def idxOf (hdr : List String) (key : String) : Option Nat :=
  ((hdr.enum.filter (fun p => p.2 == key)).getLast?).map Prod.fst

/-- The shared column accessor `col(cols, key, default)` of both
parsers: the cell at `idx[key]` when the key resolves and the row is
long enough, else the default. -/
def colGet (hdr : List String) (cols : List String) (key : String)
    (dflt : String) : String :=
  match idxOf hdr key with
  | some i => cols.getD i dflt
  | none => dflt

/-- `parse_nasdaqlisted` (build_sic.py lines 74-102): header from the
first non-blank line, rows until the "File Creation Time" trailer, each
row `(symbol, "Nasdaq", security name, "ETF|Test")`.  There is no
header validation: missing columns fall back to the per-cell default. -/
def parse_nasdaqlisted (raws : List String) :
    List (String × String × String × String) :=
  match prepLines raws with
  | [] => []
  | hdrLine :: rest =>
    let hdr := splitPipe hdrLine
    let rows := rest.takeWhile (fun ln => !strStartsWith ln "File Creation Time")
    rows.map (fun ln =>
      let cols := splitPipe ln
      (colGet hdr cols "Symbol" "", "Nasdaq", colGet hdr cols "Security Name" "",
        colGet hdr cols "ETF" "N" ++ "|" ++ colGet hdr cols "Test Issue" "N"))

/-- The symbol-header candidates of `parse_otherlisted`
(build_sic.py line 123). -/
def sym_candidates : List String :=
  ["Symbol", "ACT Symbol", "CQS Symbol", "NASDAQ Symbol"]

/-- The name-header candidates of `parse_otherlisted`
(build_sic.py line 124). -/
def name_candidates : List String :=
  ["Security Name", "Company Name", "Security"]

/-- `find_key` (build_sic.py lines 127-131): the first candidate present
in the header index. -/
def find_key (hdr : List String) (cands : List String) : Option String :=
  cands.find? (fun k => (idxOf hdr k).isSome)

/-- `parse_otherlisted` (build_sic.py lines 104-157).  When no symbol
candidate resolves it raises `KeyError` (line 136), modelled as
`Except.error` carrying the offending header; otherwise each row is
`(symbol, exchange, name, "ETF|Test")` with the exchange code decoded. -/
def parse_otherlisted (raws : List String) :
    Except (List String) (List (String × String × String × String)) :=
  match prepLines raws with
  | [] => .ok []
  | hdrLine :: rest =>
    let hdr := splitPipe hdrLine
    match find_key hdr sym_candidates with
    | none => .error hdr
    | some symKey =>
      let nameKey := find_key hdr name_candidates
      let rows := rest.takeWhile (fun ln => !strStartsWith ln "File Creation Time")
      .ok (rows.map (fun ln =>
        let cols := splitPipe ln
        let symbol := colGet hdr cols symKey ""
        let name := match nameKey with
          | some k => colGet hdr cols k ""
          | none => ""
        let exchCode := colGet hdr cols "Exchange" ""
        let exchange :=
          if exchCode == "N" then "NYSE"
          else if exchCode == "A" then "NYSE American"
          else if exchCode == "P" then "NYSE Arca"
          else ""
        (symbol, exchange, name,
          colGet hdr cols "ETF" "N" ++ "|" ++ colGet hdr cols "Test Issue" "N")))

/-- One assignment `d[k] = v` on an insertion-ordered Python dict
represented as an association list: update in place or append. -/
def assoc_set (l : List (String × String)) (k v : String) :
    List (String × String) :=
  match l with
  | [] => [(k, v)]
  | (k', v') :: rest =>
    if k' == k then (k, v) :: rest else (k', v') :: assoc_set rest k v

/-- `{v: k for k, v in cik_to_ticker.items()}` (build_sic.py line 237):
invert the map; for duplicated tickers the last CIK wins. -/
def invert_map (m : List (String × String)) : List (String × String) :=
  m.foldl (fun acc kv => assoc_set acc kv.2 kv.1) []

/-- The per-symbol body of `make_symbol_to_cik` (build_sic.py lines
239-242): `cik = ticker_to_cik.get(sym); if cik: out[sym] = cik`. -/
def m2c_entry (ticker_to_cik : List (String × String))
    (se : String × String) : Option (String × String) :=
  match List.lookup se.1 ticker_to_cik with
  | some cik => if cik == "" then none else some (se.1, cik)
  | none => none

/-- `make_symbol_to_cik` (build_sic.py lines 236-243).  The eligible
symbols are unique by construction, so the dict `out` keyed by symbol
is the filtered association list in input order. -/
def make_symbol_to_cik (eligible : List (String × String))
    (cik_to_ticker : List (String × String)) : List (String × String) :=
  eligible.filterMap (m2c_entry (invert_map cik_to_ticker))

/-- Whether `make_symbol_to_cik` maps an eligible symbol: its ticker is
in the inverted table with a truthy CIK. -/
def mappable (ticker_to_cik : List (String × String)) (sym : String) : Bool :=
  match List.lookup sym ticker_to_cik with
  | some cik => cik != ""
  | none => false

/-- The body an HTTP response carries, as seen by `r.json()`: a JSON
document or undecodable content. -/
inductive BodyKind where
  | goodJson (d : JVal)
  | badJson

/-- What one attempt of `http_get_json` observes from the network: a
response with a status code and a body, or a raised network-level
exception from `requests.get`. -/
inductive FetchOutcome where
  | response (code : Nat) (body : BodyKind)
  | netErr

/-- How one iteration of the retry loop ends: return the decoded
document, sleep the exponential-backoff delay and continue, or sleep
the fixed half second and continue. -/
inductive AttemptResult where
  | done (d : JVal)
  | retryBackoff
  | retryShort

/-- Whether an iteration did not return a document. -/
def notDone : AttemptResult → Bool
  | .done _ => false
  | _ => true

/-- The control flow of one iteration of `http_get_json` (build_sic.py
lines 248-263): a 200 with decodable JSON returns it; a 200 whose
`r.json()` raises is caught by the bare `except` and backs off, as does
a network exception; statuses 403, 429, 502, 503, 504 back off; every
other status falls through to `time.sleep(0.5)` and the loop
continues. -/
def classify : FetchOutcome → AttemptResult
  | .netErr => .retryBackoff
  | .response code body =>
    if code = 200 then
      match body with
      | .goodJson d => .done d
      | .badJson => .retryBackoff
    else if code ∈ [403, 429, 502, 503, 504] then .retryBackoff
    else .retryShort

/-- `tries = 6` (build_sic.py line 246). -/
def http_tries : Nat := 6

/-- The retry loop of `http_get_json`, with the attempt index, the
current backoff delay and the reversed log of sleeps threaded
explicitly.  Returns the result, the number of attempts issued, and the
sleeps performed (floats modelled as rationals: backoff starts at 2.0
and multiplies by 1.6; the fall-through sleep is 0.5). -/
def http_get_json_aux (env : Nat → FetchOutcome) :
    Nat → Nat → ℚ → List ℚ → Option JVal × Nat × List ℚ
  | 0, i, _, sleeps => (none, i, sleeps.reverse)
  | r + 1, i, b, sleeps =>
    match classify (env i) with
    | .done d => (some d, i + 1, sleeps.reverse)
    | .retryBackoff => http_get_json_aux env r (i + 1) (b * (8 / 5)) (b :: sleeps)
    | .retryShort => http_get_json_aux env r (i + 1) b ((1 / 2) :: sleeps)

/-- `http_get_json` (build_sic.py lines 245-264) over an environment
giving the outcome of each attempt: after the loop exhausts its 6
tries the function returns `None`. -/
def http_get_json (env : Nat → FetchOutcome) : Option JVal × Nat × List ℚ :=
  http_get_json_aux env http_tries 0 2 []

/-- `per_request_delay = 0.13` (build_sic.py line 298). -/
def per_request_delay : ℚ := 13 / 100

/-- The nondeterministic timing of one iteration of the fetch loop, all
components nonnegative for a monotonic clock: `pre` is the time from the
previous `last_tick` reading to this iteration's first
`time.perf_counter()` reading, `sleepOver` is how much `time.sleep`
overshot the requested duration, and `post` is the time from the end of
the sleep to the second `time.perf_counter()` reading. -/
structure PaceEnv where
  pre : ℚ
  sleepOver : ℚ
  post : ℚ

/-- The pacing prologue of one iteration of the fetch loop
(build_sic.py lines 304-308): read `now`, sleep the remainder of
`per_request_delay` when less than it has elapsed since `last_tick`,
then read the clock again into `last_tick`; the request starts there. -/
def next_request_start (T s : ℚ) (e : PaceEnv) : ℚ :=
  let now := s + e.pre
  let elapsed := now - s
  let afterSleep := if elapsed < T then now + (T - elapsed) + e.sleepOver else now
  afterSleep + e.post

/-- The clock readings at which consecutive requests start, from the
initial `last_tick` reading `t0` (build_sic.py line 297) and the timing
of each iteration. -/
def request_starts (T : ℚ) (t0 : ℚ) : List PaceEnv → List ℚ
  | [] => []
  | e :: es =>
    let s := next_request_start T t0 e
    s :: request_starts T s es

/-- One output row of `extract_shares_from_file` (extract_shares.py
lines 161-168).  The constant `source` and wall-clock `fetch_ts` fields
are omitted. -/
structure ShareRow where
  symbol : String
  cik : String
  shares_outstanding : JVal
  shares_asof : JVal

/-- The filename fallback CIK (extract_shares.py lines 123-126):
`re.search(r"CIK(\d+)\.json$", basename)`, then `pad_cik10` on the
digits.  The maximal trailing digit run before `.json` preceded by
`CIK` is exactly the greedy regex match. -/
def cikFromFileName (name : String) : String :=
  if strEndsWith name ".json" then
    let pre := name.data.take (name.data.length - 5)
    let ds := (pre.reverse.takeWhile Char.isDigit).reverse
    if ds.isEmpty then ""
    else
      let rest := pre.take (pre.length - ds.length)
      if strEndsWith (String.mk rest) "CIK" then pad_cik10 (String.mk ds) else ""
  else ""

/-- The resolved CIK (extract_shares.py lines 128-129):
`cik = pad_cik10(j.get("cik")) or cik_from_filename`. -/
def resolved_cik (fileName : String) (j : List (String × JVal)) : String :=
  let cikJson := padCikOfJVal (jGet j "cik")
  if cikJson == "" then cikFromFileName fileName else cikJson

/-- The resolved ticker (extract_shares.py lines 131-132):
`ticker = (j.get("ticker") or "").strip().upper() or (ticker_map.get(cik, "") if cik else "")`.
A non-string truthy `ticker` field would raise in Python and is outside
the modelled scope. -/
def resolved_ticker (fileName : String) (j : List (String × JVal))
    (tickerMap : List (String × String)) : String :=
  let tickerJson :=
    match jGet j "ticker" with
    | .str s => asciiUpper (pyStrip s)
    | _ => ""
  if tickerJson == "" then
    let cik := resolved_cik fileName j
    if cik == "" then ""
    else
      match List.lookup cik tickerMap with
      | some t => t
      | none => ""
  else tickerJson

/-- The innermost loop body of `extract_shares_from_file`
(extract_shares.py lines 152-168): skip non-dict records, require a
numeric `val` and a truthy `end`, skip entities without a ticker, else
emit one row. -/
def emit_rec (ticker cik : String) (rec : JVal) : Option ShareRow :=
  match rec with
  | .obj rf =>
    let val := jGet rf "val"
    let endv := jGet rf "end"
    if isNumericPy val && pyTruthy endv then
      if ticker == "" then none
      else some ⟨ticker, cik, val, endv⟩
    else none
  | _ => none

/-- `fact.get("units", {}).items()` (extract_shares.py line 148); a
non-dict `units` value would raise in Python and is outside the
modelled scope. -/
def unitEntries (factFields : List (String × JVal)) : List (String × JVal) :=
  match jGetD factFields "units" (.obj []) with
  | .obj fs => fs
  | _ => []

/-- The candidate facts (extract_shares.py lines 139-145):
`facts.get("dei", {}).get("EntityCommonStockSharesOutstanding")` and
`facts.get("us-gaap", {}).get("CommonStockSharesOutstanding")`, kept
only when they are dicts, in that order. -/
def candFacts (j : List (String × JVal)) : List (List (String × JVal)) :=
  let facts := jGetD j "facts" (.obj [])
  let deiF := match facts with
    | .obj fs =>
      match jGet fs "dei" with
      | .obj ds => ds
      | _ => []
    | _ => []
  let gaapF := match facts with
    | .obj fs =>
      match jGet fs "us-gaap" with
      | .obj gs => gs
      | _ => []
    | _ => []
  (match jGet deiF "EntityCommonStockSharesOutstanding" with
    | .obj fs => [fs]
    | _ => []) ++
  (match jGet gaapF "CommonStockSharesOutstanding" with
    | .obj fs => [fs]
    | _ => [])

/-- `extract_shares_from_file` (extract_shares.py lines 113-169) on an
already-decoded document: iterate every candidate fact, every unit,
every observation record, and emit one row per record that passes
`emit_rec`. -/
def extract_shares_from_file (fileName : String) (j : List (String × JVal))
    (tickerMap : List (String × String)) : List ShareRow :=
  let cik := resolved_cik fileName j
  let ticker := resolved_ticker fileName j tickerMap
  (candFacts j).flatMap (fun fact =>
    (unitEntries fact).flatMap (fun ue =>
      (match ue.2 with
        | .arr recs => recs
        | _ => []).filterMap (emit_rec ticker cik)))

/-- The output loop of `main` (extract_shares.py lines 186-195): the
rows written in file order, the `companies_scanned` counter and the
`rows_written` counter.  No counter distinguishes entities whose rows
were all skipped. -/
def extract_main (files : List (String × List (String × JVal)))
    (tickerMap : List (String × String)) : List ShareRow × Nat × Nat :=
  let rows := files.flatMap (fun fd => extract_shares_from_file fd.1 fd.2 tickerMap)
  (rows, files.length, rows.length)

/-- The two-observation scenario document of the spec: observations
end 2023-12-31 with value 100 and end 2024-03-31 with value 110. -/
def c1_scenario_doc : List (String × JVal) :=
  [("cik", .num 123), ("ticker", .str "ABC"),
   ("facts", .obj [("dei", .obj [("EntityCommonStockSharesOutstanding",
      .obj [("units", .obj [("shares", .arr
        [.obj [("end", .str "2023-12-31"), ("val", .num 100)],
         .obj [("end", .str "2024-03-31"), ("val", .num 110)]])])])])])]

/-- A document template with two observations whose end dates and
values are parameters, used to characterise the extractor's output. -/
def two_obs_doc (t : String) (e1 v1 e2 v2 : JVal) : List (String × JVal) :=
  [("cik", .num 123), ("ticker", .str t),
   ("facts", .obj [("dei", .obj [("EntityCommonStockSharesOutstanding",
      .obj [("units", .obj [("shares", .arr
        [.obj [("end", e1), ("val", v1)],
         .obj [("end", e2), ("val", v2)]])])])])])]

/-- A document with a valid observation but no `ticker` field and a CIK
absent from every ticker map. -/
def no_ticker_doc : List (String × JVal) :=
  [("cik", .num 999),
   ("facts", .obj [("dei", .obj [("EntityCommonStockSharesOutstanding",
      .obj [("units", .obj [("shares", .arr
        [.obj [("end", .str "2023-12-31"), ("val", .num 100)]])])])])])]

-- ======================================================================
-- Theorems
-- ======================================================================

/-- The value of a digit string is unchanged by leading zeros. -/
theorem digitsToNat_replicate_zero (n : Nat) (l : List Char) :
    digitsToNat (List.replicate n '0' ++ l) = digitsToNat l := by
  induction n with
  | zero => rfl
  | succ k ih =>
    have h0 : (0 : Nat) * 10 + digitVal '0' = 0 := rfl
    simpa [digitsToNat, List.replicate_succ, h0] using ih

/-- Characterisation of `pad_cik10` on inputs with at least one digit:
the result is the padding zeros followed by the last 10 digit
characters. -/
theorem pad_cik10_data (v : String) (h : digitsOf v ≠ []) :
    (pad_cik10 v).data =
      List.replicate (10 - (digitsOf v).length) '0' ++
        (digitsOf v).drop ((digitsOf v).length - 10) := by
  have hne : (digitsOf v).isEmpty = false := by
    simp [List.isEmpty_iff, h]
  show (if (digitsOf v).isEmpty = true then ("" : String)
    else String.mk ((("0000000000".data ++ digitsOf v)).drop
      (("0000000000".data ++ digitsOf v).length - 10))).data = _
  rw [hne]
  simp only [Bool.false_eq_true, if_false]
  have h10 : (['0', '0', '0', '0', '0', '0', '0', '0', '0', '0'] : List Char) =
      List.replicate 10 '0' := rfl
  rw [h10]
  have hlen : (List.replicate 10 '0' ++ digitsOf v).length - 10 =
      (digitsOf v).length := by
    simp [List.length_append, List.length_replicate]
  rw [hlen, List.drop_append_eq_append_drop, List.drop_replicate,
    List.length_replicate]

/-- C2.  The claim fails on `pad_cik10` for inputs with more than 10
digit characters: `pad_cik10 "12345678901"` keeps only the last 10
digits, so the result does not represent the numeric value of the
input's digit characters. -/
theorem C2_counterexample :
    pad_cik10 "12345678901" = "2345678901" ∧
    digitsToNat (pad_cik10 "12345678901").data ≠
      digitsToNat (digitsOf "12345678901") := by
  exact ⟨rfl, by decide⟩

/-- C2 (amended).  For every input string, `pad_cik10` returns the
empty string when the input has no digit characters; otherwise it
returns exactly 10 ASCII digit characters, namely the last 10 digit
characters of the input left-padded with zeros, and this represents the
numeric value of the input's digit characters whenever there are at
most 10 of them. -/
theorem C2_pad_cik10 (v : String) :
    (digitsOf v = [] → pad_cik10 v = "") ∧
    (digitsOf v ≠ [] →
      (pad_cik10 v).data.length = 10 ∧
      (∀ c ∈ (pad_cik10 v).data, c.isDigit = true) ∧
      (pad_cik10 v).data =
        List.replicate (10 - (digitsOf v).length) '0' ++
          (digitsOf v).drop ((digitsOf v).length - 10) ∧
      ((digitsOf v).length ≤ 10 →
        digitsToNat (pad_cik10 v).data = digitsToNat (digitsOf v))) := by
  constructor
  · intro h
    show (if (digitsOf v).isEmpty = true then ("" : String) else _) = ""
    rw [if_pos (by simp [List.isEmpty_iff, h])]
  · intro h
    have hd := pad_cik10_data v h
    refine ⟨?_, ?_, hd, ?_⟩
    · rw [hd]
      simp only [List.length_append, List.length_replicate, List.length_drop]
      have : digitsOf v ≠ [] := h
      have hpos : 0 < (digitsOf v).length := List.length_pos.mpr h
      omega
    · intro c hc
      rw [hd] at hc
      rcases List.mem_append.mp hc with hz | hs
      · rcases List.mem_replicate.mp hz with ⟨-, rfl⟩
        rfl
      · have := List.mem_of_mem_drop hs
        exact (List.mem_filter.mp this).2
    · intro hle
      rw [hd]
      have : (digitsOf v).length - 10 = 0 := by omega
      rw [this, List.drop_zero, digitsToNat_replicate_zero]

/-- C2 witness: the spec's own scenario identifier 320193 pads to 10
digits and keeps its numeric value. -/
theorem C2_witness :
    (pad_cik10 "320193").data.length = 10 ∧
    digitsToNat (pad_cik10 "320193").data = digitsToNat (digitsOf "320193") := by
  have h := (C2_pad_cik10 "320193").2 (by decide)
  exact ⟨h.1, h.2.2.2 (by decide)⟩

/-- Definitional unfolding of `extract_shares_from_file`. -/
theorem extract_shares_eq (fileName : String) (j : List (String × JVal))
    (tickerMap : List (String × String)) :
    extract_shares_from_file fileName j tickerMap =
      (candFacts j).flatMap (fun fact =>
        (unitEntries fact).flatMap (fun ue =>
          (match ue.2 with
            | .arr recs => recs
            | _ => []).filterMap
            (emit_rec (resolved_ticker fileName j tickerMap)
              (resolved_cik fileName j)))) := rfl

/-- `emit_rec` on a record with a numeric value, a truthy end date and a
non-empty ticker emits exactly one row. -/
theorem emit_rec_ok (ticker cik : String) (hT : (ticker == "") = false)
    (ev vv : JVal) (hv : isNumericPy vv = true) (he : pyTruthy ev = true) :
    emit_rec ticker cik (.obj [("end", ev), ("val", vv)]) =
      some ⟨ticker, cik, vv, ev⟩ := by
  show (if (isNumericPy vv && pyTruthy ev) = true then
      if (ticker == "") = true then none
      else some (⟨ticker, cik, vv, ev⟩ : ShareRow)
    else none) = some ⟨ticker, cik, vv, ev⟩
  simp [hv, he, hT]

/-- C1.  The claim fails on `extract_shares_from_file`: for the spec's
two-observation scenario document the extractor emits both
observations, not the single latest one. -/
theorem C1_counterexample :
    (extract_shares_from_file "CIK0000000123.json" c1_scenario_doc []).length = 2 ∧
    ¬(extract_shares_from_file "CIK0000000123.json" c1_scenario_doc []).length ≤ 1 := by
  exact ⟨rfl, by decide⟩

/-- C1 (amended).  The extractor performs no latest-date reduction: on a
document whose selected candidate fact holds two observations with
numeric values and truthy end dates, and whose ticker resolves, the
output contains one row per observation, in order; in particular the
scenario document yields the rows for both val=100/end=2023-12-31 and
val=110/end=2024-03-31. -/
theorem C1_amended (t : String) (e1 v1 e2 v2 : JVal)
    (ht : asciiUpper (pyStrip t) ≠ "")
    (hv1 : isNumericPy v1 = true) (hv2 : isNumericPy v2 = true)
    (he1 : pyTruthy e1 = true) (he2 : pyTruthy e2 = true) :
    extract_shares_from_file "CIK0000000123.json" (two_obs_doc t e1 v1 e2 v2) [] =
      [⟨asciiUpper (pyStrip t), "0000000123", v1, e1⟩,
       ⟨asciiUpper (pyStrip t), "0000000123", v2, e2⟩] := by
  have hbeq : (asciiUpper (pyStrip t) == "") = false := beq_eq_false_iff_ne.mpr ht
  have hcik : resolved_cik "CIK0000000123.json" (two_obs_doc t e1 v1 e2 v2) =
      "0000000123" := rfl
  have hticker : resolved_ticker "CIK0000000123.json" (two_obs_doc t e1 v1 e2 v2) [] =
      asciiUpper (pyStrip t) := by
    show (if (asciiUpper (pyStrip t) == "") = true then _
      else asciiUpper (pyStrip t)) = asciiUpper (pyStrip t)
    simp [hbeq]
  have hcf : candFacts (two_obs_doc t e1 v1 e2 v2) =
      [[("units", JVal.obj [("shares", JVal.arr
        [JVal.obj [("end", e1), ("val", v1)],
         JVal.obj [("end", e2), ("val", v2)]])])]] := rfl
  have hue : unitEntries [("units", JVal.obj [("shares", JVal.arr
      [JVal.obj [("end", e1), ("val", v1)],
       JVal.obj [("end", e2), ("val", v2)]])])] =
      [("shares", JVal.arr
        [JVal.obj [("end", e1), ("val", v1)],
         JVal.obj [("end", e2), ("val", v2)]])] := rfl
  rw [extract_shares_eq, hticker, hcik, hcf]
  simp only [List.flatMap_cons, List.flatMap_nil, List.append_nil, hue]
  show List.filterMap (emit_rec (asciiUpper (pyStrip t)) "0000000123")
      [JVal.obj [("end", e1), ("val", v1)],
       JVal.obj [("end", e2), ("val", v2)]] = _
  rw [List.filterMap_cons, emit_rec_ok _ _ hbeq _ _ hv1 he1,
    List.filterMap_cons, emit_rec_ok _ _ hbeq _ _ hv2 he2,
    List.filterMap_nil]

/-- C1 witness: a concrete instance of the amended claim, with two
observations end=2024-06-30/val=5 and end=2024-09-30/val=7. -/
theorem C1_witness :
    asciiUpper (pyStrip "nvda") ≠ "" ∧
    extract_shares_from_file "CIK0000000123.json"
      (two_obs_doc "nvda" (.str "2024-06-30") (.num 5) (.str "2024-09-30") (.num 7)) [] =
      [⟨asciiUpper (pyStrip "nvda"), "0000000123", .num 5, .str "2024-06-30"⟩,
       ⟨asciiUpper (pyStrip "nvda"), "0000000123", .num 7, .str "2024-09-30"⟩] := by
  exact ⟨by decide,
    C1_amended "nvda" (.str "2024-06-30") (.num 5) (.str "2024-09-30") (.num 7)
      (by decide) rfl rfl (by decide) (by decide)⟩

/-- With an empty ticker every observation record is skipped. -/
theorem emit_rec_no_ticker (cik : String) (rec : JVal) :
    emit_rec "" cik rec = none := by
  cases rec <;> simp [emit_rec]

/-- C10.  When the document has no `ticker` field and its resolved CIK
is absent from the ticker map, the extractor returns no rows at all,
whatever observations the document holds. -/
theorem C10_no_ticker_no_rows (fileName : String) (j : List (String × JVal))
    (tickerMap : List (String × String))
    (h1 : jGet j "ticker" = .null)
    (h2 : List.lookup (resolved_cik fileName j) tickerMap = none) :
    extract_shares_from_file fileName j tickerMap = [] := by
  have ht : resolved_ticker fileName j tickerMap = "" := by
    unfold resolved_ticker
    rw [h1]
    simp [h2]
  rw [extract_shares_eq, ht]
  refine List.flatMap_eq_nil_iff.mpr (fun fact _ => ?_)
  refine List.flatMap_eq_nil_iff.mpr (fun ue _ => ?_)
  exact List.filterMap_eq_nil_iff.mpr (fun r _ => emit_rec_no_ticker _ r)

/-- C10 witness: a concrete document with a valid observation
(numeric value, truthy end date) but no resolvable ticker yields no
rows, while the same document with a ticker field yields one row. -/
theorem C10_witness :
    jGet no_ticker_doc "ticker" = .null ∧
    List.lookup (resolved_cik "CIK0000000999.json" no_ticker_doc)
      ([] : List (String × String)) = none ∧
    extract_shares_from_file "CIK0000000999.json" no_ticker_doc [] = [] ∧
    (extract_shares_from_file "CIK0000000999.json"
      (("ticker", JVal.str "TKR") :: no_ticker_doc) []).length = 1 := by
  exact ⟨rfl, rfl, C10_no_ticker_no_rows "CIK0000000999.json" no_ticker_doc [] rfl rfl,
    rfl⟩

/-- C3.  The claim fails on `parse_nasdaqlisted`: a header with no
symbol column does not raise — the parser silently produces a record
with empty symbol and name fields. -/
theorem C3_counterexample :
    idxOf (splitPipe "Foo|Bar") "Symbol" = none ∧
    parse_nasdaqlisted ["Foo|Bar", "X|Y"] = [("", "Nasdaq", "", "N|N")] ∧
    parse_nasdaqlisted ["Foo|Bar", "X|Y"] ≠ [] := by
  exact ⟨rfl, rfl, by decide⟩

/-- C3 (amended).  Only `parse_otherlisted` fails on a schema mismatch:
when none of its symbol-header candidates resolves against the header
it raises (`KeyError`, modelled as `Except.error`) and produces no
records, while `parse_nasdaqlisted` performs no such check. -/
theorem C3_amended (raws : List String) (hdrLine : String) (rest : List String)
    (hpl : prepLines raws = hdrLine :: rest)
    (hsym : find_key (splitPipe hdrLine) sym_candidates = none) :
    parse_otherlisted raws = .error (splitPipe hdrLine) := by
  unfold parse_otherlisted
  rw [hpl]
  show (match find_key (splitPipe hdrLine) sym_candidates with
    | none => Except.error (splitPipe hdrLine)
    | some symKey => _) = Except.error (splitPipe hdrLine)
  rw [hsym]

/-- C3 witness: a concrete other-listed file whose header resolves no
symbol candidate is rejected whole. -/
theorem C3_witness :
    prepLines ["Foo|Bar", "X|Y"] = "Foo|Bar" :: ["X|Y"] ∧
    find_key (splitPipe "Foo|Bar") sym_candidates = none ∧
    parse_otherlisted ["Foo|Bar", "X|Y"] = .error (splitPipe "Foo|Bar") := by
  exact ⟨rfl, rfl, C3_amended ["Foo|Bar", "X|Y"] "Foo|Bar" ["X|Y"] rfl rfl⟩

/-- Definitional step of the retry loop. -/
theorem http_aux_succ (env : Nat → FetchOutcome) (r i : Nat) (b : ℚ)
    (sleeps : List ℚ) :
    http_get_json_aux env (r + 1) i b sleeps =
      match classify (env i) with
      | .done d => (some d, i + 1, sleeps.reverse)
      | .retryBackoff => http_get_json_aux env r (i + 1) (b * (8 / 5)) (b :: sleeps)
      | .retryShort => http_get_json_aux env r (i + 1) b ((1 / 2) :: sleeps) := rfl

/-- When no attempt returns a document, the loop runs through all its
remaining tries and returns `None`. -/
theorem http_aux_no_success (env : Nat → FetchOutcome) :
    ∀ (r i : Nat) (b : ℚ) (sleeps : List ℚ),
      (∀ k, k < r → notDone (classify (env (i + k))) = true) →
      (http_get_json_aux env r i b sleeps).1 = none ∧
      (http_get_json_aux env r i b sleeps).2.1 = i + r := by
  intro r
  induction r with
  | zero => intro i b sleeps _; exact ⟨rfl, rfl⟩
  | succ n ih =>
    intro i b sleeps h
    have h0 : notDone (classify (env i)) = true := by
      have := h 0 (Nat.succ_pos n)
      simpa using this
    have hnext : ∀ (b' : ℚ) (s' : List ℚ),
        (http_get_json_aux env n (i + 1) b' s').1 = none ∧
        (http_get_json_aux env n (i + 1) b' s').2.1 = i + 1 + n := by
      intro b' s'
      exact ih (i + 1) b' s' (fun k hk => by
        have := h (k + 1) (by omega)
        have harg : i + (k + 1) = i + 1 + k := by omega
        rwa [harg] at this)
    cases hc : classify (env i) with
    | done d => rw [hc] at h0; simp [notDone] at h0
    | retryBackoff =>
      rw [http_aux_succ, hc]
      have hr := hnext (b * (8 / 5)) (b :: sleeps)
      exact ⟨hr.1, by rw [hr.2]; omega⟩
    | retryShort =>
      rw [http_aux_succ, hc]
      have hr := hnext b ((1 / 2) :: sleeps)
      exact ⟨hr.1, by rw [hr.2]; omega⟩

/-- C4.  The claim fails on `http_get_json`: a 404 — outside the
backoff status set — does not stop the loop; the client still issues
all 6 attempts (each followed by the fixed half-second sleep) before
returning `None`. -/
theorem C4_counterexample :
    (http_get_json (fun _ => .response 404 .badJson)).2.1 = 6 ∧
    (http_get_json (fun _ => .response 404 .badJson)).2.1 ≠ 1 ∧
    (http_get_json (fun _ => .response 404 .badJson)).1 = none ∧
    (http_get_json (fun _ => .response 404 .badJson)).2.2 =
      [1 / 2, 1 / 2, 1 / 2, 1 / 2, 1 / 2, 1 / 2] := by
  refine ⟨rfl, by decide, rfl, ?_⟩
  show List.reverse _ = _
  norm_num

/-- C4 (amended).  No status short-circuits the loop: a non-200 status
outside {403, 429, 502, 503, 504} (e.g. 404 or 500) takes the
fixed-sleep branch and is retried like any other failure, so a constant
stream of such responses consumes all 6 attempts and ends in `None`. -/
theorem C4_amended (code : Nat) (b : BodyKind) (h200 : code ≠ 200)
    (hset : code ∉ [403, 429, 502, 503, 504]) :
    classify (.response code b) = .retryShort ∧
    ∀ env : Nat → FetchOutcome,
      (∀ i, i < http_tries → env i = .response code b) →
      (http_get_json env).1 = none ∧ (http_get_json env).2.1 = http_tries := by
  have hcl : classify (.response code b) = .retryShort := by
    simp only [classify]
    rw [if_neg h200, if_neg hset]
  refine ⟨hcl, fun env henv => ?_⟩
  have h := http_aux_no_success env http_tries 0 2 [] (fun k hk => by
    rw [Nat.zero_add, henv k hk, hcl]; rfl)
  exact ⟨h.1, h.2⟩

/-- C4 witness: the amended claim at status 404. -/
theorem C4_witness :
    classify (.response 404 (.goodJson .null)) = .retryShort ∧
    (http_get_json (fun _ => .response 404 (.goodJson .null))).1 = none ∧
    (http_get_json (fun _ => .response 404 (.goodJson .null))).2.1 = http_tries := by
  have h := C4_amended 404 (.goodJson .null) (by decide) (by decide)
  exact ⟨h.1, h.2 (fun _ => .response 404 (.goodJson .null)) (fun i _ => rfl)⟩

/-- C5.  A retryable failure (network exception, backoff status, or
undecodable 200 body) on every attempt makes the client issue exactly
`http_tries = 6` attempts and then return `None`; the loop is total —
every outcome is classified, none escapes as an exception. -/
theorem C5_exhausts_attempts (env : Nat → FetchOutcome)
    (h : ∀ i, i < http_tries → classify (env i) = .retryBackoff) :
    (http_get_json env).1 = none ∧ (http_get_json env).2.1 = http_tries := by
  have hh := http_aux_no_success env http_tries 0 2 [] (fun k hk => by
    rw [Nat.zero_add, h k hk]; rfl)
  exact ⟨hh.1, hh.2⟩

/-- C5 witness: a sustained network-level failure consumes exactly the
6 attempts and yields `None`. -/
theorem C5_witness :
    (http_get_json (fun _ => .netErr)).1 = none ∧
    (http_get_json (fun _ => .netErr)).2.1 = http_tries := by
  exact C5_exhausts_attempts (fun _ => .netErr) (fun _ _ => rfl)

/-- C6.  The claim's ADR carve-out fails on the code: a display name
that matches the fund/trust vocabulary is excluded even when it
indicates an American Depositary Share and carries no Preferred/Notes
token. -/
theorem C6_counterexample :
    is_extra_fundlike "Acme Trust American Depositary Shares" = true ∧
    rowAccept "ADR1" "NYSE" "Acme Trust American Depositary Shares" "N|N" = none ∧
    build_eligible_symbols []
      [("ADR1", "NYSE", "Acme Trust American Depositary Shares", "N|N")] = [] := by
  exact ⟨rfl, rfl, rfl⟩

/-- C6 (amended).  The name-pattern exclusion has no ADR carve-out: any
row whose display name matches the fund/trust/partnership/preferred
vocabulary is dropped unconditionally; the scenario name
"ABC American Depositary Shares" is retained only because it does not
match that vocabulary. -/
theorem C6_amended :
    (∀ symbol exchange name flags, is_extra_fundlike name = true →
      rowAccept symbol exchange name flags = none) ∧
    is_extra_fundlike "ABC American Depositary Shares" = false ∧
    build_eligible_symbols
      [("ABC", "Nasdaq", "ABC American Depositary Shares", "N|N")] [] =
      [("ABC", "Nasdaq")] := by
  refine ⟨fun symbol exchange name flags hf => ?_, rfl, rfl⟩
  simp [rowAccept, hf]

/-- C6 witness: the general exclusion applied to a fund-named row. -/
theorem C6_witness :
    is_extra_fundlike "XYZ Fund" = true ∧
    rowAccept "XYZ" "Nasdaq" "XYZ Fund" "N|N" = none := by
  exact ⟨by decide, C6_amended.1 "XYZ" "Nasdaq" "XYZ Fund" "N|N" (by decide)⟩

/-- The de-duplication loop keeps a subsequence of its input. -/
theorem dedup_sublist :
    ∀ (l : List (String × String)) (seen : List String),
      (dedup_by_symbol l seen).Sublist l := by
  intro l
  induction l with
  | nil => intro seen; exact List.Sublist.refl []
  | cons p rest ih =>
    intro seen
    obtain ⟨sym, ex⟩ := p
    show (if sym ∈ seen then dedup_by_symbol rest seen
      else (sym, ex) :: dedup_by_symbol rest (sym :: seen)).Sublist _
    split_ifs with h
    · exact (ih seen).cons (sym, ex)
    · exact (ih (sym :: seen)).cons₂ (sym, ex)

/-- Every pair kept by the de-duplication loop has a fresh symbol and is
the first pair of the input carrying that symbol. -/
theorem dedup_first_wins :
    ∀ (l : List (String × String)) (seen : List String)
      (p : String × String), p ∈ dedup_by_symbol l seen →
      p.1 ∉ seen ∧ l.find? (fun q => q.1 == p.1) = some p := by
  intro l
  induction l with
  | nil => intro seen p hp; exact absurd hp (List.not_mem_nil p)
  | cons q rest ih =>
    intro seen p hp
    obtain ⟨sym, ex⟩ := q
    by_cases h : sym ∈ seen
    · have hp' : p ∈ dedup_by_symbol rest seen := by
        simpa [dedup_by_symbol, h] using hp
      obtain ⟨hns, hfind⟩ := ih seen p hp'
      have hne : sym ≠ p.1 := fun he => hns (he ▸ h)
      refine ⟨hns, ?_⟩
      rw [List.find?_cons_of_neg _ (by simpa using hne), hfind]
    · have hp' : p = (sym, ex) ∨ p ∈ dedup_by_symbol rest (sym :: seen) := by
        have : p ∈ (sym, ex) :: dedup_by_symbol rest (sym :: seen) := by
          simpa [dedup_by_symbol, h] using hp
        simpa using this
      rcases hp' with rfl | hp'
      · exact ⟨h, List.find?_cons_of_pos _ (by simp)⟩
      · obtain ⟨hns, hfind⟩ := ih (sym :: seen) p hp'
        have hne : sym ≠ p.1 := fun he => hns (by simp [← he])
        have hns' : p.1 ∉ seen := fun hc => hns (by simp [hc])
        refine ⟨hns', ?_⟩
        rw [List.find?_cons_of_neg _ (by simpa using hne), hfind]

/-- The symbols kept by the de-duplication loop are pairwise distinct. -/
theorem dedup_nodup :
    ∀ (l : List (String × String)) (seen : List String),
      ((dedup_by_symbol l seen).map Prod.fst).Nodup := by
  intro l
  induction l with
  | nil => intro seen; simp [dedup_by_symbol]
  | cons q rest ih =>
    intro seen
    obtain ⟨sym, ex⟩ := q
    show ((if sym ∈ seen then dedup_by_symbol rest seen
      else (sym, ex) :: dedup_by_symbol rest (sym :: seen)).map Prod.fst).Nodup
    split_ifs with h
    · exact ih seen
    · refine List.Nodup.cons ?_ (ih (sym :: seen))
      intro hc
      rcases List.mem_map.mp hc with ⟨p, hp, hfst⟩
      have := (dedup_first_wins rest (sym :: seen) p hp).1
      exact this (by simp [hfst])

/-- C7.  The eligible set built by `build_eligible_symbols` lists each
symbol at most once, is a subsequence of the filtered rows (so it keeps
first-encountered order), and the record kept for a symbol is the first
filtered row carrying that symbol across the combined input order. -/
theorem C7_dedup_first_seen (nas oth : List (String × String × String × String))
    (p : String × String) (hp : p ∈ build_eligible_symbols nas oth) :
    ((build_eligible_symbols nas oth).map Prod.fst).Nodup ∧
    (build_eligible_symbols nas oth).Sublist (eligible_rows nas oth) ∧
    (eligible_rows nas oth).find? (fun q => q.1 == p.1) = some p := by
  refine ⟨dedup_nodup _ [], dedup_sublist _ [], ?_⟩
  exact (dedup_first_wins (eligible_rows nas oth) [] p hp).2

/-- C7 witness: the spec's duplicate-symbol scenario — "ABC" listed on
Nasdaq first and NYSE second survives once, with the first exchange. -/
theorem C7_witness :
    ("ABC", "Nasdaq") ∈ build_eligible_symbols
      [("ABC", "Nasdaq", "Alpha Co Common", "N|N")]
      [("ABC", "NYSE", "Alpha Co Common", "N|N")] ∧
    ((build_eligible_symbols
      [("ABC", "Nasdaq", "Alpha Co Common", "N|N")]
      [("ABC", "NYSE", "Alpha Co Common", "N|N")]).map Prod.fst).Nodup ∧
    (eligible_rows
      [("ABC", "Nasdaq", "Alpha Co Common", "N|N")]
      [("ABC", "NYSE", "Alpha Co Common", "N|N")]).find?
        (fun q => q.1 == "ABC") = some ("ABC", "Nasdaq") := by
  have hmem : ("ABC", "Nasdaq") ∈ build_eligible_symbols
      [("ABC", "Nasdaq", "Alpha Co Common", "N|N")]
      [("ABC", "NYSE", "Alpha Co Common", "N|N")] := by decide
  have h := C7_dedup_first_seen
    [("ABC", "Nasdaq", "Alpha Co Common", "N|N")]
    [("ABC", "NYSE", "Alpha Co Common", "N|N")]
    ("ABC", "Nasdaq") hmem
  exact ⟨hmem, h.1, h.2.2⟩

/-- `m2c_entry` keeps a symbol exactly when `mappable` holds for it. -/
theorem m2c_entry_isSome (t2c : List (String × String)) (se : String × String) :
    (m2c_entry t2c se).isSome = mappable t2c se.1 := by
  unfold m2c_entry mappable
  cases h : List.lookup se.1 t2c with
  | none => rfl
  | some cik => cases hcb : (cik == "") <;> simp [bne, hcb]

/-- C8.  The claim fails on `make_symbol_to_cik`: an eligible symbol
absent from the identifier table is simply absent from the returned
mapping — no list of unmapped symbols is returned. -/
theorem C8_counterexample :
    make_symbol_to_cik [("AAA", "Nasdaq")] [] = [] ∧
    "AAA" ∉ (make_symbol_to_cik [("AAA", "Nasdaq")] []).map Prod.fst := by
  exact ⟨rfl, by decide⟩

/-- C8 (amended).  `make_symbol_to_cik` returns only the mapping for
the symbols it can resolve; unmapped eligible symbols are dropped from
the result, but they are accounted for by counting: the mapped count
plus the unmappable count equals the eligible count (the difference
`eligible - mapped` that the run's metadata exposes), and every mapped
symbol comes from the eligible list. -/
theorem C8_amended (eligible cik_to_ticker : List (String × String)) :
    (make_symbol_to_cik eligible cik_to_ticker).length +
      eligible.countP (fun se => !mappable (invert_map cik_to_ticker) se.1) =
      eligible.length ∧
    ∀ p ∈ make_symbol_to_cik eligible cik_to_ticker,
      p.1 ∈ eligible.map Prod.fst := by
  constructor
  · have h1 : (make_symbol_to_cik eligible cik_to_ticker).length =
        eligible.countP (fun se => mappable (invert_map cik_to_ticker) se.1) := by
      unfold make_symbol_to_cik
      rw [List.length_filterMap_eq_countP]
      exact List.countP_congr (fun x _ => by rw [m2c_entry_isSome])
    have h2 : eligible.countP
        (fun se => !mappable (invert_map cik_to_ticker) se.1) =
        eligible.countP (fun se =>
          decide ¬(mappable (invert_map cik_to_ticker) se.1) = true) :=
      List.countP_congr (fun x _ => by simp)
    rw [h1, h2, ← List.length_eq_countP_add_countP]
  · intro p hp
    rcases List.mem_filterMap.mp hp with ⟨a, ha, hfa⟩
    have hfst : p.1 = a.1 := by
      unfold m2c_entry at hfa
      cases h : List.lookup a.1 (invert_map cik_to_ticker) with
      | none => simp [h] at hfa
      | some cik =>
        simp only [h] at hfa
        by_cases hc : (cik == "") = true
        · simp [hc] at hfa
        · simp only [if_neg hc] at hfa
          have := Option.some.inj hfa
          rw [← this]
    exact hfst ▸ List.mem_map.mpr ⟨a, ha, rfl⟩

/-- C8 witness: one mappable and one unmappable eligible symbol — the
counts balance and the mapped symbol is eligible. -/
theorem C8_witness :
    (make_symbol_to_cik [("AAPL", "Nasdaq"), ("ZZZ", "NYSE")]
      [("0000320193", "AAPL")]).length +
      ([("AAPL", "Nasdaq"), ("ZZZ", "NYSE")] : List (String × String)).countP
        (fun se => !mappable (invert_map [("0000320193", "AAPL")]) se.1) =
      ([("AAPL", "Nasdaq"), ("ZZZ", "NYSE")] : List (String × String)).length ∧
    ("AAPL", "0000320193").1 ∈
      ([("AAPL", "Nasdaq"), ("ZZZ", "NYSE")] : List (String × String)).map Prod.fst := by
  have h := C8_amended [("AAPL", "Nasdaq"), ("ZZZ", "NYSE")] [("0000320193", "AAPL")]
  exact ⟨h.1, h.2 ("AAPL", "0000320193") (by decide)⟩

/-- Between one request start and the next, at least `T` elapses: when
less than `T` has passed at the clock read, the sleep makes up the
remainder (and may overshoot); otherwise at least `T` had already
passed. -/
theorem next_request_start_ge (T s : ℚ) (e : PaceEnv)
    (hpre : 0 ≤ e.pre) (hso : 0 ≤ e.sleepOver) (hpost : 0 ≤ e.post) :
    s + T ≤ next_request_start T s e := by
  simp only [next_request_start]
  split_ifs with h
  · have : s + e.pre - s = e.pre := by ring
    rw [this] at h ⊢
    nlinarith
  · have : s + e.pre - s = e.pre := by ring
    rw [this] at h
    push_neg at h
    nlinarith

/-- C9.  Under a monotonic clock (all timing components nonnegative)
the pacing loop guarantees that consecutive request starts are at
least the configured interval `T` apart, globally across the whole
run. -/
theorem C9_pacing (T t0 : ℚ) (es : List PaceEnv)
    (hok : ∀ e ∈ es, 0 ≤ e.pre ∧ 0 ≤ e.sleepOver ∧ 0 ≤ e.post) :
    (request_starts T t0 es).Chain' (fun a b => a + T ≤ b) := by
  induction es generalizing t0 with
  | nil => simp [request_starts]
  | cons e es ih =>
    show List.Chain' _ (next_request_start T t0 e :: request_starts T _ es)
    rw [List.chain'_cons']
    refine ⟨?_, ih _ (fun e' he' => hok e' (List.mem_cons_of_mem e he'))⟩
    intro y hy
    cases es with
    | nil => simp [request_starts] at hy
    | cons e' es' =>
      have hy' : next_request_start T (next_request_start T t0 e) e' = y := by
        simpa [request_starts] using hy
      obtain ⟨h1, h2, h3⟩ := hok e' (by simp)
      rw [← hy']
      exact next_request_start_ge T _ e' h1 h2 h3

/-- C9 witness: three iterations at the code's configured interval
0.13 s, with a fast second iteration forcing the sleep. -/
theorem C9_witness :
    (request_starts per_request_delay 0
      [⟨0, 0, 0⟩, ⟨1 / 100, 0, 0⟩, ⟨1, 0, 0⟩]).Chain'
        (fun a b => a + per_request_delay ≤ b) := by
  exact C9_pacing per_request_delay 0 [⟨0, 0, 0⟩, ⟨1 / 100, 0, 0⟩, ⟨1, 0, 0⟩]
    (by intro e he; fin_cases he <;> refine ⟨by norm_num, by norm_num, by norm_num⟩)

end MicrocapSec
